import Mathlib

/-!
Verification of the gcplog ingestion targets (promtail, GCP pub/sub adapter).

We shallowly embed the two target variants of
`clients/pkg/promtail/targets/gcplog` — the push-mode HTTP handler
(`push_target.go`) and the pull-mode subscription consumer
(`pull_target.go`) — as executable Lean definitions, and prove the
specified properties about them.  Side-effecting code is embedded as
functions producing ordered event traces; the concurrent lifecycle
(cancellation, join, sink stop, channel handoff) is embedded as labelled
step relations on explicit state records.
-/

namespace Gcplog

/-- Modelled from the spec: the internal log entry (`api.Entry` lives
outside the supplied sources).  Spec data model: ordered label pairs, a
timestamp instant, and a line.  The claims treat entries opaquely. -/
structure Entry where
  labels : List (String × String)
  timestamp : Nat
  line : String
deriving DecidableEq, Repr

/-- Modelled from the spec: the push payload type (`PushMessage`, defined
in a source file outside src/): one wrapped message with raw payload
data, attributes, a message id and a publish instant.  The claims treat
it opaquely. -/
structure PushMessage where
  data : String
  attributes : List (String × String)
  messageId : String
  publishTime : Nat
deriving DecidableEq, Repr

/-- Returns true when an `Except` holds an error. -/
def isErr : Except String α → Bool
  | .error _ => true
  | .ok _ => false

/-! ## Push-mode HTTP handler (`push_target.go`, `push`, lines 98–131)

The handler's observable behaviour per request is an ordered list of
events.  The three fallible stages — reading the request body
(`io.ReadAll`), JSON decoding (`json.Unmarshal` into a `PushMessage`),
and translation (`translate`) — are passed in as parameters, since they
are external to the handler's own control flow. -/

/-- One observable action of the push handler, in program order. -/
inductive PEv where
  | incPushErrors
  | logWarn
  | logDebug
  | respond (status : Nat)
  | submit (e : Entry)
  | incPushEntries
deriving DecidableEq, Repr

/-- The push handler `pushTarget.push`, as the ordered event list it
produces for one request.  Mirrors lines 98–131 of `push_target.go`:
each failure path increments the error counter, logs a warning and
responds 400; the success path logs, submits the entry to the sink
channel, increments the entries counter and responds 204. -/
def push (readBody : Except String String)
    (unmarshal : String → Except String PushMessage)
    (translate : PushMessage → Except String Entry) : List PEv :=
  match readBody with
  | .error _ => [.incPushErrors, .logWarn, .respond 400]
  | .ok bs =>
    match unmarshal bs with
    | .error _ => [.incPushErrors, .logWarn, .respond 400]
    | .ok pm =>
      match translate pm with
      | .error _ => [.incPushErrors, .logWarn, .respond 400]
      | .ok entry => [.logDebug, .submit entry, .incPushEntries, .respond 204]

/-- Recognizes sink submission events. -/
def PEv.isSubmit : PEv → Bool
  | .submit _ => true
  | _ => false

end Gcplog

namespace Gcplog

/-- C2: for every push-mode request whose body read fails, whose JSON
payload fails to unmarshal, or whose translation fails, the handler's
trace is exactly one error-counter increment, a warning log and a 400
response: it responds 400, increments the error counter by exactly 1,
and submits nothing to the sink. -/
theorem C2_push_malformed_bad_request
    (readBody : Except String String)
    (unmarshal : String → Except String PushMessage)
    (translate : PushMessage → Except String Entry)
    (hfail : isErr readBody = true
      ∨ (∃ bs, readBody = .ok bs ∧ isErr (unmarshal bs) = true)
      ∨ (∃ bs pm, readBody = .ok bs ∧ unmarshal bs = .ok pm
          ∧ isErr (translate pm) = true)) :
    push readBody unmarshal translate
        = [PEv.incPushErrors, PEv.logWarn, PEv.respond 400]
    ∧ PEv.respond 400 ∈ push readBody unmarshal translate
    ∧ (push readBody unmarshal translate).count PEv.incPushErrors = 1
    ∧ (∀ e : Entry, PEv.submit e ∉ push readBody unmarshal translate) := by
  have hmain : push readBody unmarshal translate
      = [PEv.incPushErrors, PEv.logWarn, PEv.respond 400] := by
    rcases hfail with h | ⟨bs, hbs, h⟩ | ⟨bs, pm, hbs, hpm, h⟩
    · cases readBody with
      | error e => simp [push]
      | ok bs => simp [isErr] at h
    · subst hbs
      cases hu : unmarshal bs with
      | error e => simp [push, hu]
      | ok pm => rw [hu] at h; simp [isErr] at h
    · subst hbs
      cases ht : translate pm with
      | error e => simp [push, hpm, ht]
      | ok e => rw [ht] at h; simp [isErr] at h
  refine ⟨hmain, ?_, ?_, ?_⟩
  · rw [hmain]; simp
  · rw [hmain]; rfl
  · intro e; rw [hmain]; simp

/-- Witness for C2 at a concrete request whose body read fails. -/
theorem C2_witness :
    push (Except.error "unexpected EOF")
        (fun _ => Except.error "bad json") (fun _ => Except.error "malformed")
        = [PEv.incPushErrors, PEv.logWarn, PEv.respond 400]
    ∧ PEv.respond 400 ∈ push (Except.error "unexpected EOF")
        (fun _ => Except.error "bad json") (fun _ => Except.error "malformed")
    ∧ (push (Except.error "unexpected EOF")
        (fun _ => Except.error "bad json")
        (fun _ => Except.error "malformed")).count PEv.incPushErrors = 1
    ∧ (∀ e : Entry, PEv.submit e ∉ push (Except.error "unexpected EOF")
        (fun _ => Except.error "bad json") (fun _ => Except.error "malformed")) :=
  C2_push_malformed_bad_request _ _ _ (Or.inl rfl)

/-- C4: for every push-mode request that reads, unmarshals and
translates successfully, the handler submits exactly one Entry to the
sink, the 204 response is not sent before the submission event, and it
responds 204 and increments the success counter by exactly 1. -/
theorem C4_push_success_submits_then_responds
    (readBody : Except String String)
    (unmarshal : String → Except String PushMessage)
    (translate : PushMessage → Except String Entry)
    (bs : String) (pm : PushMessage) (e : Entry)
    (h1 : readBody = .ok bs) (h2 : unmarshal bs = .ok pm)
    (h3 : translate pm = .ok e) :
    push readBody unmarshal translate
        = [PEv.logDebug, PEv.submit e, PEv.incPushEntries, PEv.respond 204]
    ∧ (push readBody unmarshal translate).countP PEv.isSubmit = 1
    ∧ (∀ n, PEv.respond 204 ∈ (push readBody unmarshal translate).take n →
        PEv.submit e ∈ (push readBody unmarshal translate).take n)
    ∧ PEv.respond 204 ∈ push readBody unmarshal translate
    ∧ (push readBody unmarshal translate).count PEv.incPushEntries = 1 := by
  subst h1
  have hmain : push (Except.ok bs) unmarshal translate
      = [PEv.logDebug, PEv.submit e, PEv.incPushEntries, PEv.respond 204] := by
    simp [push, h2, h3]
  refine ⟨hmain, ?_, ?_, ?_, ?_⟩
  · rw [hmain]; simp [List.countP, List.countP.go, PEv.isSubmit]
  · intro n hn
    rw [hmain] at hn ⊢
    match n with
    | 0 => simp at hn
    | 1 => simp [List.take] at hn
    | 2 => simp [List.take] at hn
    | 3 => simp [List.take] at hn
    | (k + 4) => simp [List.take]
  · rw [hmain]; simp
  · rw [hmain]; rfl

/-- Witness for C4 at a concrete successful request. -/
theorem C4_witness :
    push (Except.ok "body") (fun _ => Except.ok ⟨"aGk=", [], "m1", 7⟩)
        (fun _ => Except.ok ⟨[("job", "gcplog")], 7, "hi"⟩)
        = [PEv.logDebug, PEv.submit ⟨[("job", "gcplog")], 7, "hi"⟩,
           PEv.incPushEntries, PEv.respond 204]
    ∧ (push (Except.ok "body") (fun _ => Except.ok ⟨"aGk=", [], "m1", 7⟩)
        (fun _ => Except.ok ⟨[("job", "gcplog")], 7, "hi"⟩)).countP PEv.isSubmit = 1
    ∧ (∀ n, PEv.respond 204 ∈ (push (Except.ok "body")
          (fun _ => Except.ok ⟨"aGk=", [], "m1", 7⟩)
          (fun _ => Except.ok ⟨[("job", "gcplog")], 7, "hi"⟩)).take n →
        PEv.submit ⟨[("job", "gcplog")], 7, "hi"⟩ ∈ (push (Except.ok "body")
          (fun _ => Except.ok ⟨"aGk=", [], "m1", 7⟩)
          (fun _ => Except.ok ⟨[("job", "gcplog")], 7, "hi"⟩)).take n)
    ∧ PEv.respond 204 ∈ push (Except.ok "body")
        (fun _ => Except.ok ⟨"aGk=", [], "m1", 7⟩)
        (fun _ => Except.ok ⟨[("job", "gcplog")], 7, "hi"⟩)
    ∧ (push (Except.ok "body") (fun _ => Except.ok ⟨"aGk=", [], "m1", 7⟩)
        (fun _ => Except.ok ⟨[("job", "gcplog")], 7, "hi"⟩)).count
          PEv.incPushEntries = 1 :=
  C4_push_success_submits_then_responds _ _ _ "body" ⟨"aGk=", [], "m1", 7⟩
    ⟨[("job", "gcplog")], 7, "hi"⟩ rfl rfl rfl

end Gcplog

namespace Gcplog

/-! ## Pull-mode consumer loop (`pull_target.go`, `run`, lines 104–120)

The consumer loop receives message handles from the handoff channel and
processes each one: it calls `format` on the handle, and either
(translation error) logs and acknowledges, or (success) submits the
entry to the sink channel, acknowledges, and increments the entries
counter.  We embed the loop as the ordered event trace it produces over
the sequence of handles it receives, with the result of `format` carried
on each handle (the `format` function itself lives outside the supplied
sources and the claims treat it opaquely). -/

/-- Outcome of `format` on one message handle; the spec's translation
error taxonomy distinguishes `Malformed` and `Dropped` (the loop treats
any error identically). -/
inductive FmtResult where
  | ok (e : Entry)
  | malformed
  | dropped
deriving DecidableEq, Repr

/-- A pull-mode message handle: an identity plus the outcome its payload
produces under `format`. -/
structure Msg where
  id : Nat
  fmt : FmtResult
deriving DecidableEq, Repr

/-- One observable action of the pull consumer loop.  `incError` models
`metrics.gcplogErrors.Inc` — the error counter exists in the metrics set
(it is incremented by the receive task on receive failure), so its
absence from the consumer loop's trace is expressible. -/
inductive Ev where
  | translate (id : Nat)
  | logFormatError (id : Nat)
  | ack (id : Nat)
  | submit (id : Nat) (e : Entry)
  | incEntries (id : Nat)
  | incError
deriving DecidableEq, Repr

/-- The body of the consumer loop for one received handle, mirroring
lines 108–118 of `pull_target.go`: call `format`; on error, log the
formatting failure and `Ack`; on success, send the entry to the sink
channel, `Ack` only after the send, and increment the entries counter. -/
def processMsg (m : Msg) : List Ev :=
  Ev.translate m.id ::
    match m.fmt with
    | .ok e => [Ev.submit m.id e, Ev.ack m.id, Ev.incEntries m.id]
    | .malformed => [Ev.logFormatError m.id, Ev.ack m.id]
    | .dropped => [Ev.logFormatError m.id, Ev.ack m.id]

/-- The consumer loop's trace over the handles it receives, in order;
the loop handles one message fully before taking the next. -/
def consumerRun (msgs : List Msg) : List Ev :=
  msgs.flatMap processMsg

/-- The handle an event belongs to (`incError` carries none). -/
def Ev.owner : Ev → Option Nat
  | .translate i => some i
  | .logFormatError i => some i
  | .ack i => some i
  | .submit i _ => some i
  | .incEntries i => some i
  | .incError => none

/-- Recognizes a sink submission for handle `i`. -/
def Ev.isSubmitFor (i : Nat) : Ev → Bool
  | .submit j _ => j == i
  | _ => false

/-- Recognizes a translation attempt for handle `i`. -/
def Ev.isTranslateFor (i : Nat) : Ev → Bool
  | .translate j => j == i
  | _ => false

theorem consumerRun_cons (m : Msg) (rest : List Msg) :
    consumerRun (m :: rest) = processMsg m ++ consumerRun rest :=
  List.flatMap_cons _ _ _

theorem owner_of_mem_processMsg {ev : Ev} {m : Msg} (h : ev ∈ processMsg m) :
    ev.owner = some m.id := by
  rcases m with ⟨i, fmt⟩
  cases fmt with
  | ok e =>
    simp [processMsg] at h
    rcases h with h | h | h | h <;> subst h <;> rfl
  | malformed =>
    simp [processMsg] at h
    rcases h with h | h | h <;> subst h <;> rfl
  | dropped =>
    simp [processMsg] at h
    rcases h with h | h | h <;> subst h <;> rfl

theorem owner_of_mem_consumerRun {ev : Ev} {msgs : List Msg}
    (h : ev ∈ consumerRun msgs) : ∃ m ∈ msgs, ev.owner = some m.id := by
  rw [consumerRun, List.mem_flatMap] at h
  obtain ⟨m, hm, hev⟩ := h
  exact ⟨m, hm, owner_of_mem_processMsg hev⟩

theorem incError_notmem_consumerRun (msgs : List Msg) :
    Ev.incError ∉ consumerRun msgs := by
  intro h
  obtain ⟨m, _, ho⟩ := owner_of_mem_consumerRun h
  simp [Ev.owner] at ho

theorem isSubmitFor_owner {i : Nat} {ev : Ev}
    (h : Ev.isSubmitFor i ev = true) : ev.owner = some i := by
  cases ev <;> simp [Ev.isSubmitFor] at h <;> simp [Ev.owner, h]

theorem isTranslateFor_owner {i : Nat} {ev : Ev}
    (h : Ev.isTranslateFor i ev = true) : ev.owner = some i := by
  cases ev <;> simp [Ev.isTranslateFor] at h <;> simp [Ev.owner, h]

/-- With distinct handle identities, the loop trace splits around the
chunk of the distinguished handle, and no event outside that chunk
belongs to it. -/
theorem consumerRun_decomp {msgs : List Msg} {m : Msg}
    (hnd : (msgs.map Msg.id).Nodup) (hm : m ∈ msgs) :
    ∃ A B, consumerRun msgs = A ++ (processMsg m ++ B)
      ∧ (∀ ev ∈ A, ev.owner ≠ some m.id)
      ∧ (∀ ev ∈ B, ev.owner ≠ some m.id) := by
  induction msgs with
  | nil => cases hm
  | cons m0 rest ih =>
    rw [List.map_cons, List.nodup_cons] at hnd
    rcases List.mem_cons.mp hm with rfl | hm'
    · refine ⟨[], consumerRun rest, by rw [consumerRun_cons]; rfl, by simp, ?_⟩
      intro ev hev
      obtain ⟨m', hm', ho⟩ := owner_of_mem_consumerRun hev
      rw [ho]
      intro hc
      have : m'.id = m.id := Option.some.inj hc
      exact hnd.1 (this ▸ List.mem_map_of_mem Msg.id hm')
    · obtain ⟨A, B, hAB, hA, hB⟩ := ih hnd.2 hm'
      refine ⟨processMsg m0 ++ A, B, ?_, ?_, hB⟩
      · rw [consumerRun_cons, hAB, List.append_assoc]
      · intro ev hev
        rcases List.mem_append.mp hev with h | h
        · rw [owner_of_mem_processMsg h]
          intro hc
          have : m0.id = m.id := Option.some.inj hc
          exact hnd.1 (this ▸ List.mem_map_of_mem Msg.id hm')
        · exact hA ev h

theorem take_mem_lift_left {α : Type} {P B : List α} {a b : α}
    (hnot : a ∉ B)
    (h : ∀ n, a ∈ P.take n → b ∈ P.take n) :
    ∀ n, a ∈ (P ++ B).take n → b ∈ (P ++ B).take n := by
  intro n hn
  rw [List.take_append_eq_append_take] at hn ⊢
  rcases List.mem_append.mp hn with h1 | h1
  · exact List.mem_append.mpr (Or.inl (h n h1))
  · exact absurd (List.take_subset _ _ h1) hnot

theorem take_mem_lift_right {α : Type} {A R : List α} {a b : α}
    (hnot : a ∉ A)
    (h : ∀ n, a ∈ R.take n → b ∈ R.take n) :
    ∀ n, a ∈ (A ++ R).take n → b ∈ (A ++ R).take n := by
  intro n hn
  rw [List.take_append_eq_append_take] at hn ⊢
  rcases List.mem_append.mp hn with h1 | h1
  · exact absurd (List.take_subset _ _ h1) hnot
  · exact List.mem_append.mpr (Or.inr (h _ h1))

theorem ack_take_translate (m : Msg) :
    ∀ n, Ev.ack m.id ∈ (processMsg m).take n →
      Ev.translate m.id ∈ (processMsg m).take n := by
  intro n h
  rcases m with ⟨i, fmt⟩
  cases fmt <;>
    rcases n with _ | (_ | (_ | n)) <;>
    simp_all [processMsg, List.take]

theorem ack_take_submit (m : Msg) (e : Entry) (hfmt : m.fmt = FmtResult.ok e) :
    ∀ n, Ev.ack m.id ∈ (processMsg m).take n →
      Ev.submit m.id e ∈ (processMsg m).take n := by
  intro n h
  rcases m with ⟨i, fmt⟩
  simp at hfmt
  subst hfmt
  rcases n with _ | (_ | (_ | n)) <;>
    simp_all [processMsg, List.take]

end Gcplog

namespace Gcplog

theorem count_ack_self (m : Msg) :
    (processMsg m).count (Ev.ack m.id) = 1 := by
  rcases m with ⟨i, fmt⟩
  cases fmt <;> simp [processMsg, List.count_cons]

theorem countP_submitFor_self (m : Msg) :
    (processMsg m).countP (Ev.isSubmitFor m.id)
      = match m.fmt with | .ok _ => 1 | .malformed => 0 | .dropped => 0 := by
  rcases m with ⟨i, fmt⟩
  cases fmt <;> simp [processMsg, List.countP_cons, Ev.isSubmitFor]

theorem countP_translateFor_self (m : Msg) :
    (processMsg m).countP (Ev.isTranslateFor m.id) = 1 := by
  rcases m with ⟨i, fmt⟩
  cases fmt <;> simp [processMsg, List.countP_cons, Ev.isTranslateFor]

theorem count_logFormatError_self (m : Msg)
    (hfail : m.fmt = FmtResult.malformed ∨ m.fmt = FmtResult.dropped) :
    (processMsg m).count (Ev.logFormatError m.id) = 1 := by
  rcases m with ⟨i, fmt⟩
  rcases hfail with h | h <;> simp at h <;> subst h <;>
    simp [processMsg, List.count_cons]

theorem ack_take_logFormatError (m : Msg)
    (hfail : m.fmt = FmtResult.malformed ∨ m.fmt = FmtResult.dropped) :
    ∀ n, Ev.ack m.id ∈ (processMsg m).take n →
      Ev.logFormatError m.id ∈ (processMsg m).take n := by
  intro n h
  rcases m with ⟨i, fmt⟩
  rcases hfail with hf | hf <;> simp at hf <;> subst hf <;>
    rcases n with _ | (_ | (_ | n)) <;>
    simp_all [processMsg, List.take]

/-- C1: in pull mode, for every message handle received by the consumer
loop (handles having distinct identities), exactly one acknowledgment is
issued for the handle, it occurs no earlier than the corresponding
submission attempt (on success, strictly after the sink submission; on
translation failure, after the failed translation), the handle produces
at most one Entry submission, and it is translated exactly once. -/
theorem C1_pull_ack_discipline
    (msgs : List Msg) (m : Msg)
    (hnd : (msgs.map Msg.id).Nodup) (hm : m ∈ msgs) :
    (consumerRun msgs).count (Ev.ack m.id) = 1
    ∧ (consumerRun msgs).countP (Ev.isSubmitFor m.id) ≤ 1
    ∧ (consumerRun msgs).countP (Ev.isTranslateFor m.id) = 1
    ∧ (∀ n, Ev.ack m.id ∈ (consumerRun msgs).take n →
        Ev.translate m.id ∈ (consumerRun msgs).take n)
    ∧ (∀ e, m.fmt = FmtResult.ok e →
        ∀ n, Ev.ack m.id ∈ (consumerRun msgs).take n →
          Ev.submit m.id e ∈ (consumerRun msgs).take n) := by
  obtain ⟨A, B, hAB, hA, hB⟩ := consumerRun_decomp hnd hm
  have hackA : Ev.ack m.id ∉ A := fun h => hA _ h rfl
  have hackB : Ev.ack m.id ∉ B := fun h => hB _ h rfl
  have hsubA : A.countP (Ev.isSubmitFor m.id) = 0 :=
    List.countP_eq_zero.mpr (fun ev hev hp => hA ev hev (isSubmitFor_owner hp))
  have hsubB : B.countP (Ev.isSubmitFor m.id) = 0 :=
    List.countP_eq_zero.mpr (fun ev hev hp => hB ev hev (isSubmitFor_owner hp))
  have htrA : A.countP (Ev.isTranslateFor m.id) = 0 :=
    List.countP_eq_zero.mpr (fun ev hev hp => hA ev hev (isTranslateFor_owner hp))
  have htrB : B.countP (Ev.isTranslateFor m.id) = 0 :=
    List.countP_eq_zero.mpr (fun ev hev hp => hB ev hev (isTranslateFor_owner hp))
  rw [hAB]
  refine ⟨?_, ?_, ?_, ?_, ?_⟩
  · rw [List.count_append, List.count_append, List.count_eq_zero.mpr hackA,
      List.count_eq_zero.mpr hackB, count_ack_self]
  · rw [List.countP_append, List.countP_append, hsubA, hsubB,
      countP_submitFor_self]
    cases m.fmt <;> simp
  · rw [List.countP_append, List.countP_append, htrA, htrB,
      countP_translateFor_self]
  · exact take_mem_lift_right hackA (take_mem_lift_left hackB (ack_take_translate m))
  · intro e hfmt
    exact take_mem_lift_right hackA
      (take_mem_lift_left hackB (ack_take_submit m e hfmt))

/-- Witness for C1 at a concrete two-handle run (one success, one
translation failure). -/
theorem C1_witness :
    (consumerRun [⟨0, FmtResult.ok ⟨[], 0, "x"⟩⟩,
        ⟨1, FmtResult.malformed⟩]).count (Ev.ack 0) = 1
    ∧ (consumerRun [⟨0, FmtResult.ok ⟨[], 0, "x"⟩⟩,
        ⟨1, FmtResult.malformed⟩]).countP (Ev.isSubmitFor 0) ≤ 1
    ∧ (consumerRun [⟨0, FmtResult.ok ⟨[], 0, "x"⟩⟩,
        ⟨1, FmtResult.malformed⟩]).countP (Ev.isTranslateFor 0) = 1
    ∧ (Ev.ack 0 ∈ (consumerRun [⟨0, FmtResult.ok ⟨[], 0, "x"⟩⟩,
          ⟨1, FmtResult.malformed⟩]).take 3 →
        Ev.translate 0 ∈ (consumerRun [⟨0, FmtResult.ok ⟨[], 0, "x"⟩⟩,
          ⟨1, FmtResult.malformed⟩]).take 3) := by
  have h := C1_pull_ack_discipline
    [⟨0, FmtResult.ok ⟨[], 0, "x"⟩⟩, ⟨1, FmtResult.malformed⟩]
    ⟨0, FmtResult.ok ⟨[], 0, "x"⟩⟩ (by decide) (by decide)
  exact ⟨h.1, h.2.1, h.2.2.1, h.2.2.2.1 3⟩

/-- Counterexample to C3 as stated: a handle whose translation fails is
logged and acknowledged, but the consumer loop issues no error-counter
increment (the claim asserts the error counter is incremented; lines
110–114 of `pull_target.go` contain no such increment). -/
theorem C3_counterexample :
    Ev.incError ∉ consumerRun [⟨0, FmtResult.malformed⟩]
    ∧ (consumerRun [⟨0, FmtResult.malformed⟩]).count (Ev.ack 0) = 1
    ∧ (consumerRun [⟨0, FmtResult.malformed⟩]).count (Ev.logFormatError 0) = 1 := by
  decide

/-- C3 amended: in pull mode, when translation of a handle's payload
fails with Malformed or Dropped, the consumer logs the failure and still
acknowledges the handle (the acknowledgment coming after the log), and
no Entry is submitted to the sink for that handle; the error counter is
not incremented by the consumer loop. -/
theorem C3_pull_failure_logged_acked_not_counted
    (msgs : List Msg) (m : Msg)
    (hnd : (msgs.map Msg.id).Nodup) (hm : m ∈ msgs)
    (hfail : m.fmt = FmtResult.malformed ∨ m.fmt = FmtResult.dropped) :
    (consumerRun msgs).count (Ev.logFormatError m.id) = 1
    ∧ (consumerRun msgs).count (Ev.ack m.id) = 1
    ∧ (consumerRun msgs).countP (Ev.isSubmitFor m.id) = 0
    ∧ Ev.incError ∉ consumerRun msgs
    ∧ (∀ n, Ev.ack m.id ∈ (consumerRun msgs).take n →
        Ev.logFormatError m.id ∈ (consumerRun msgs).take n) := by
  obtain ⟨A, B, hAB, hA, hB⟩ := consumerRun_decomp hnd hm
  have hackA : Ev.ack m.id ∉ A := fun h => hA _ h rfl
  have hackB : Ev.ack m.id ∉ B := fun h => hB _ h rfl
  have hlogA : Ev.logFormatError m.id ∉ A := fun h => hA _ h rfl
  have hlogB : Ev.logFormatError m.id ∉ B := fun h => hB _ h rfl
  have hsubA : A.countP (Ev.isSubmitFor m.id) = 0 :=
    List.countP_eq_zero.mpr (fun ev hev hp => hA ev hev (isSubmitFor_owner hp))
  have hsubB : B.countP (Ev.isSubmitFor m.id) = 0 :=
    List.countP_eq_zero.mpr (fun ev hev hp => hB ev hev (isSubmitFor_owner hp))
  have hinc := incError_notmem_consumerRun msgs
  rw [hAB] at hinc ⊢
  refine ⟨?_, ?_, ?_, hinc, ?_⟩
  · rw [List.count_append, List.count_append, List.count_eq_zero.mpr hlogA,
      List.count_eq_zero.mpr hlogB, count_logFormatError_self m hfail]
  · rw [List.count_append, List.count_append, List.count_eq_zero.mpr hackA,
      List.count_eq_zero.mpr hackB, count_ack_self]
  · rw [List.countP_append, List.countP_append, hsubA, hsubB,
      countP_submitFor_self]
    rcases hfail with h | h <;> rw [h] <;> rfl
  · exact take_mem_lift_right hackA
      (take_mem_lift_left hackB (ack_take_logFormatError m hfail))

/-- Witness for the amended C3 at a concrete dropped handle. -/
theorem C3_witness :
    (consumerRun [⟨5, FmtResult.dropped⟩]).count (Ev.logFormatError 5) = 1
    ∧ (consumerRun [⟨5, FmtResult.dropped⟩]).count (Ev.ack 5) = 1
    ∧ (consumerRun [⟨5, FmtResult.dropped⟩]).countP (Ev.isSubmitFor 5) = 0
    ∧ Ev.incError ∉ consumerRun [⟨5, FmtResult.dropped⟩]
    ∧ (Ev.ack 5 ∈ (consumerRun [⟨5, FmtResult.dropped⟩]).take 3 →
        Ev.logFormatError 5 ∈ (consumerRun [⟨5, FmtResult.dropped⟩]).take 3) := by
  have h := C3_pull_failure_logged_acked_not_counted
    [⟨5, FmtResult.dropped⟩] ⟨5, FmtResult.dropped⟩
    (by decide) (by decide) (Or.inr rfl)
  exact ⟨h.1, h.2.1, h.2.2.1, h.2.2.2.1, h.2.2.2.2 3⟩

end Gcplog

namespace Gcplog

/-! ## Pull-mode lifecycle (`pull_target.go`, `Stop` lines 146–151,
receive task lines 89–102)

`Stop` runs `t.cancel()`, then `t.wg.Wait()` — which returns only once
the consumer's `run` (registered with the wait group) has returned —
then `t.handler.Stop()`.  We embed this as a step relation over the
target's lifecycle state, with `Stop`'s progress tracked by a program
counter: 0 before `cancel`, 1 after `cancel`, 2 after the join, 3 after
the sink stop (`Stop` returned).  The consumer's exit is a separate
step, available once the cancellation signal is set (the loop's select
observes `ctx.Done()` and returns).  The model starts in the Running
state of the spec's lifecycle (both tasks active, consumer registered
with the wait group). -/

structure LState where
  cancelled : Bool
  consumerDone : Bool
  sinkStopped : Bool
  stopPC : Nat
deriving DecidableEq, Repr

/-- The Running state: nothing cancelled or stopped, `Stop` not begun. -/
def initLState : LState :=
  { cancelled := false, consumerDone := false, sinkStopped := false, stopPC := 0 }

/-- One scheduling step of the pull target's lifecycle. -/
inductive LStep : LState → LState → Prop where
  | cancelStep (s : LState) : s.stopPC = 0 →
      LStep s { s with cancelled := true, stopPC := 1 }
  | waitStep (s : LState) : s.stopPC = 1 → s.consumerDone = true →
      LStep s { s with stopPC := 2 }
  | sinkStopStep (s : LState) : s.stopPC = 2 →
      LStep s { s with sinkStopped := true, stopPC := 3 }
  | consumerExitStep (s : LState) : s.cancelled = true → s.consumerDone = false →
      LStep s { s with consumerDone := true }

/-- States reachable from the Running state. -/
def LReach (s : LState) : Prop := Relation.ReflTransGen LStep initLState s

theorem lreach_invariant {s : LState} (h : LReach s) :
    (1 ≤ s.stopPC → s.cancelled = true)
    ∧ (2 ≤ s.stopPC → s.consumerDone = true)
    ∧ (s.sinkStopped = true → s.stopPC = 3) := by
  induction h with
  | refl => refine ⟨?_, ?_, ?_⟩ <;> intro h <;> simp [initLState] at h
  | tail _ hstep ih =>
    obtain ⟨ih1, ih2, ih3⟩ := ih
    cases hstep with
    | cancelStep hpc =>
      refine ⟨fun _ => rfl, fun h2 => ?_, fun hs => ?_⟩
      · simp at h2
      · have h3 := ih3 hs
        rw [hpc] at h3
        exact absurd h3 (by decide)
    | waitStep hpc hdone =>
      refine ⟨fun _ => ih1 (by omega), fun _ => hdone, fun hs => ?_⟩
      have h3 := ih3 hs
      rw [hpc] at h3
      exact absurd h3 (by decide)
    | sinkStopStep hpc =>
      exact ⟨fun _ => ih1 (by omega), fun _ => ih2 (by omega), fun _ => rfl⟩
    | consumerExitStep hc hd =>
      exact ⟨fun h1 => ih1 h1, fun _ => rfl, fun hs => ih3 hs⟩

/-- C5: from the Running state, pull-mode `Stop` issues the cancellation
signal first (any progress of `Stop` implies the signal is set), the
sink is stopped only in `Stop`'s final step — at which point the join
has completed and the consumer has exited — and `Stop` has not returned
(program counter 3) before the consumer loop exited. -/
theorem C5_pull_stop_joins_before_sink_stop
    (s : LState) (h : LReach s) :
    (1 ≤ s.stopPC → s.cancelled = true)
    ∧ (2 ≤ s.stopPC → s.consumerDone = true)
    ∧ (s.sinkStopped = true →
        s.stopPC = 3 ∧ s.consumerDone = true ∧ s.cancelled = true)
    ∧ (s.stopPC = 3 → s.consumerDone = true ∧ s.cancelled = true) := by
  obtain ⟨i1, i2, i3⟩ := lreach_invariant h
  refine ⟨i1, i2, fun hs => ?_, fun h3 => ?_⟩
  · have h3 := i3 hs
    exact ⟨h3, i2 (by omega), i1 (by omega)⟩
  · exact ⟨i2 (by omega), i1 (by omega)⟩

/-- Witness for C5 at the fully stopped state, reached by the run
cancel → consumer exit → join → sink stop. -/
theorem C5_witness :
    (1 ≤ (LState.mk true true true 3).stopPC →
      (LState.mk true true true 3).cancelled = true)
    ∧ (2 ≤ (LState.mk true true true 3).stopPC →
      (LState.mk true true true 3).consumerDone = true)
    ∧ ((LState.mk true true true 3).sinkStopped = true →
        (LState.mk true true true 3).stopPC = 3
        ∧ (LState.mk true true true 3).consumerDone = true
        ∧ (LState.mk true true true 3).cancelled = true)
    ∧ ((LState.mk true true true 3).stopPC = 3 →
        (LState.mk true true true 3).consumerDone = true
        ∧ (LState.mk true true true 3).cancelled = true) := by
  refine C5_pull_stop_joins_before_sink_stop _ ?_
  have s1 : LStep initLState (LState.mk true false false 1) :=
    LStep.cancelStep initLState rfl
  have s2 : LStep (LState.mk true false false 1) (LState.mk true true false 1) :=
    LStep.consumerExitStep _ rfl rfl
  have s3 : LStep (LState.mk true true false 1) (LState.mk true true false 2) :=
    LStep.waitStep _ rfl rfl
  have s4 : LStep (LState.mk true true false 2) (LState.mk true true true 3) :=
    LStep.sinkStopStep _ rfl
  exact Relation.ReflTransGen.tail
    (Relation.ReflTransGen.tail
      (Relation.ReflTransGen.tail
        (Relation.ReflTransGen.tail Relation.ReflTransGen.refl s1) s2) s3) s4

/-! ## Pull-mode receive task (`pull_target.go`, lines 89–102)

The receive goroutine registers `defer t.cancel()` and calls
`sub.Receive`; when `Receive` returns, the error branch (non-nil error
only) logs the failure, increments the error counter and sets the
last-successful-scrape gauge, and the deferred cancellation always runs
last.  `Receive`'s return value is the parameter. -/

/-- One observable action of the receive task, in program order. -/
inductive REv where
  | subscribeReceive
  | logReceiveFailure
  | incErrorCounter
  | setLastScrapeGauge
  | issueCancel
deriving DecidableEq, Repr

/-- The receive task's event trace given the value `sub.Receive`
returned (`none` models a nil error). -/
def receiveTask (err : Option String) : List REv :=
  REv.subscribeReceive ::
    ((match err with
      | some _ => [REv.logReceiveFailure, REv.incErrorCounter,
          REv.setLastScrapeGauge]
      | none => []) ++ [REv.issueCancel])

/-- Counterexample to C6 as stated: when the receive operation returns
without an error (as it does when the context is cancelled), the
receive task issues the cancellation signal but does not log, count, or
update the gauge — the claim asserts it does all three on any return. -/
theorem C6_counterexample :
    receiveTask none = [REv.subscribeReceive, REv.issueCancel]
    ∧ REv.logReceiveFailure ∉ receiveTask none
    ∧ REv.incErrorCounter ∉ receiveTask none
    ∧ REv.setLastScrapeGauge ∉ receiveTask none := by
  decide

/-- C6 amended: when the receive operation terminates with an error, the
receive task logs and counts the failure, updates the
last-successful-scrape gauge and then issues the cancellation signal;
when it terminates without an error it only issues the cancellation
signal; in every case the cancellation signal is issued, the receive
operation is invoked exactly once (no reconnect is attempted), and once
the signal is set the consumer loop's exit step is available, so the
whole target winds down. -/
theorem C6_receive_termination_cancels :
    (∀ e, receiveTask (some e)
        = [REv.subscribeReceive, REv.logReceiveFailure, REv.incErrorCounter,
           REv.setLastScrapeGauge, REv.issueCancel])
    ∧ receiveTask none = [REv.subscribeReceive, REv.issueCancel]
    ∧ (∀ err, REv.issueCancel ∈ receiveTask err)
    ∧ (∀ err, (receiveTask err).count REv.subscribeReceive = 1)
    ∧ (∀ (sink : Bool) (pc : Nat),
        LStep (LState.mk true false sink pc) (LState.mk true true sink pc)) := by
  refine ⟨fun e => rfl, rfl, ?_, ?_, ?_⟩
  · intro err
    cases err <;> simp [receiveTask]
  · intro err
    cases err <;> rfl
  · intro sink pc
    exact LStep.consumerExitStep _ rfl rfl

/-! ## Stop idempotence (`pull_target.go` 146–151, `push_target.go` 153–158)

`Stop`'s effect on the target's resources, as endomorphisms on the
resource state.  The constituent operations come from the collaborators'
boundaries: cancelling a Go context is idempotent (setting the signal a
second time is a no-op), `wg.Wait` changes nothing, and the sink's
`stop()` is idempotent per the sink boundary; the push server's
`Shutdown` releases the listener, likewise modelled as setting its
flag. -/

/-- Resources of the pull target that `Stop` touches. -/
structure PullStopState where
  cancelled : Bool
  sinkStopped : Bool
deriving DecidableEq, Repr

/-- `t.cancel()`: sets the cancellation signal; idempotent (Go
`context.CancelFunc` semantics: subsequent calls are no-ops). -/
def cancelCtx (s : PullStopState) : PullStopState := { s with cancelled := true }

/-- `t.wg.Wait()`: joins the consumer; mutates no target resource. -/
def wgWait (s : PullStopState) : PullStopState := s

/-- Modelled from the spec: `t.handler.Stop()` — the sink boundary
declares `stop()` idempotent (the `api.EntryHandler` implementation is
outside the supplied sources). -/
def stopSinkPull (s : PullStopState) : PullStopState := { s with sinkStopped := true }

/-- `pullTarget.Stop` (lines 146–151): cancel, join, stop the sink. -/
def pullStop (s : PullStopState) : PullStopState :=
  stopSinkPull (wgWait (cancelCtx s))

/-- Resources of the push target that `Stop` touches. -/
structure PushStopState where
  serverShutdown : Bool
  sinkStopped : Bool
deriving DecidableEq, Repr

/-- Modelled from the spec: `h.server.Shutdown()` — shuts down the HTTP
listener (the server component is an external collaborator; releasing
an already-released listener is a no-op at its boundary). -/
def shutdownServer (s : PushStopState) : PushStopState :=
  { s with serverShutdown := true }

/-- Modelled from the spec: `h.handler.Stop()` — idempotent sink stop. -/
def stopSinkPush (s : PushStopState) : PushStopState := { s with sinkStopped := true }

/-- `pushTarget.Stop` (lines 153–158): log, shut down the server, stop
the sink. -/
def pushStop (s : PushStopState) : PushStopState :=
  stopSinkPush (shutdownServer s)

/-- C7: calling `Stop` twice on either Target variant leaves exactly the
state one call leaves — the second call is a no-op — and setting the
cancellation signal is itself idempotent. -/
theorem C7_stop_idempotent :
    (∀ s, pullStop (pullStop s) = pullStop s)
    ∧ (∀ s, pushStop (pushStop s) = pushStop s)
    ∧ (∀ s, cancelCtx (cancelCtx s) = cancelCtx s) :=
  ⟨fun _ => rfl, fun _ => rfl, fun _ => rfl⟩

end Gcplog

namespace Gcplog

/-! ## Handoff channel and backpressure (`pull_target.go`, line 72 and
lines 94–96, 104–118)

`newPullTarget` creates the handoff channel with
`make(chan *pubsub.Message)` — no capacity argument, so the channel is
unbuffered: a send completes only by rendezvous with a receiver.  The
receive callback's only action is `t.msgs <- m` (lines 94–96); the
consumer receives from the channel in its select.  We embed the two
tasks' interaction with the channel as a labelled step relation: a
buffered send is possible only below capacity, a rendezvous send
requires the consumer to be at its select, and while the consumer is
blocked sending to the sink only the sink's acceptance can move it. -/

/-- Capacity of the `msgs` channel created at line 72:
`make(chan *pubsub.Message)` makes an unbuffered channel. -/
def pullMsgsChanCapacity : Nat := 0

/-- Consumer task control point: at its select, blocked sending an
entry to the sink (`send <- entry`, line 115), or exited. -/
inductive CPC where
  | selecting
  | submitting (e : Entry)
  | done
deriving DecidableEq, Repr

/-- Joint state of the receive callback, the handoff channel and the
consumer task.  `handed` counts handles the consumer has accepted. -/
structure PSys where
  cancelled : Bool
  buffer : List Msg
  consumer : CPC
  handed : Nat
deriving DecidableEq, Repr

/-- Step labels: a handoff-channel send completing, the sink accepting
the pending entry, the cancellation signal, the consumer exiting. -/
inductive PLbl where
  | sendToChan
  | sinkAccept
  | cancelSig
  | consumerExit
deriving DecidableEq, Repr

/-- Labelled steps of the pull target's tasks around the handoff
channel.  A send into free buffer space needs `length < capacity`; a
rendezvous send needs the consumer at its select, and hands the
consumer the message (moving it to the blocked sink send when `format`
succeeds, or back to the select after log-and-ack when it fails). -/
inductive PStep : PSys → PLbl → PSys → Prop where
  | sendBuffered (s : PSys) (m : Msg) :
      s.buffer.length < pullMsgsChanCapacity →
      PStep s .sendToChan { s with buffer := s.buffer ++ [m] }
  | sendRendezvousOk (s : PSys) (m : Msg) (e : Entry) :
      s.buffer = [] → s.consumer = .selecting → m.fmt = .ok e →
      PStep s .sendToChan
        { s with consumer := .submitting e, handed := s.handed + 1 }
  | sendRendezvousFail (s : PSys) (m : Msg) :
      s.buffer = [] → s.consumer = .selecting → (∀ e, m.fmt ≠ .ok e) →
      PStep s .sendToChan { s with handed := s.handed + 1 }
  | sinkAcceptStep (s : PSys) (e : Entry) :
      s.consumer = .submitting e →
      PStep s .sinkAccept { s with consumer := .selecting }
  | cancelStep (s : PSys) :
      PStep s .cancelSig { s with cancelled := true }
  | consumerExitStep (s : PSys) :
      s.cancelled = true → s.consumer = .selecting →
      PStep s .consumerExit { s with consumer := .done }

/-- A finite run of labelled steps. -/
inductive PTrace : PSys → List PLbl → PSys → Prop where
  | nil (s : PSys) : PTrace s [] s
  | cons {s s' s'' : PSys} {l : PLbl} {ls : List PLbl} :
      PStep s l s' → PTrace s' ls s'' → PTrace s (l :: ls) s''

/-- While the consumer is blocked in its sink send, any step other than
the sink accepting leaves the consumer blocked and hands off nothing. -/
theorem blocked_step {s : PSys} {e : Entry} {l : PLbl} {s' : PSys}
    (hc : s.consumer = CPC.submitting e) (hl : l ≠ PLbl.sinkAccept)
    (hstep : PStep s l s') :
    s'.handed = s.handed ∧ s'.consumer = CPC.submitting e := by
  cases hstep with
  | sendBuffered m hlen => simp [pullMsgsChanCapacity] at hlen
  | sendRendezvousOk m e' hbuf hsel hfmt => simp [hc] at hsel
  | sendRendezvousFail m hbuf hsel hfmt => simp [hc] at hsel
  | sinkAcceptStep e' hsub => exact absurd rfl hl
  | cancelStep => exact ⟨rfl, hc⟩
  | consumerExitStep hcan hsel => simp [hc] at hsel

theorem blocked_trace {e : Entry} {ls : List PLbl} :
    ∀ {s s' : PSys}, PTrace s ls s' → s.consumer = CPC.submitting e →
      (∀ l ∈ ls, l ≠ PLbl.sinkAccept) →
      s'.handed = s.handed ∧ s'.consumer = CPC.submitting e := by
  induction ls with
  | nil =>
    intro s s' htr hc _
    cases htr
    exact ⟨rfl, hc⟩
  | cons l ls ih =>
    intro s s' htr hc hls
    cases htr with
    | cons hstep htr' =>
      have hl : l ≠ PLbl.sinkAccept := hls _ (List.mem_cons_self _ _)
      obtain ⟨hh, hcons⟩ := blocked_step hc hl hstep
      obtain ⟨hh', hcons'⟩ :=
        ih htr' hcons (fun l' hl' => hls _ (List.mem_cons_of_mem _ hl'))
      exact ⟨by rw [hh', hh], hcons'⟩

/-- C8: the handoff channel between the receive callback and the
consumer has zero capacity; consequently its buffer never holds a
message (every step preserves an empty buffer), a send can only
complete by rendezvous with the consumer at its select, and while the
sink submission blocks — along any run in which the sink never accepts
— the receive side hands off no further message. -/
theorem C8_zero_buffer_backpressure :
    pullMsgsChanCapacity = 0
    ∧ (∀ (s : PSys) (l : PLbl) (s' : PSys), PStep s l s' →
        s.buffer = [] → s'.buffer = [])
    ∧ (∀ (s s' : PSys), PStep s PLbl.sendToChan s' →
        s.consumer = CPC.selecting)
    ∧ (∀ (s : PSys) (e : Entry) (ls : List PLbl) (s' : PSys),
        s.consumer = CPC.submitting e →
        (∀ l ∈ ls, l ≠ PLbl.sinkAccept) →
        PTrace s ls s' → s'.handed = s.handed) := by
  refine ⟨rfl, ?_, ?_, ?_⟩
  · intro s l s' hstep hb
    cases hstep with
    | sendBuffered m hlen => simp [pullMsgsChanCapacity] at hlen
    | sendRendezvousOk m e hbuf hsel hfmt => exact hb
    | sendRendezvousFail m hbuf hsel hfmt => exact hb
    | sinkAcceptStep e hsub => exact hb
    | cancelStep => exact hb
    | consumerExitStep hcan hsel => exact hb
  · intro s s' hstep
    cases hstep with
    | sendBuffered m hlen => simp [pullMsgsChanCapacity] at hlen
    | sendRendezvousOk m e hbuf hsel hfmt => exact hsel
    | sendRendezvousFail m hbuf hsel hfmt => exact hsel
  · intro s e ls s' hc hls htr
    exact (blocked_trace htr hc hls).1

/-- Witness for C8: a consumer blocked on the sink, stepped through a
cancellation signal (not a sink acceptance), has handed off nothing
new. -/
theorem C8_witness :
    pullMsgsChanCapacity = 0
    ∧ (PSys.mk true [] (CPC.submitting ⟨[], 0, "x"⟩) 3).handed
        = (PSys.mk false [] (CPC.submitting ⟨[], 0, "x"⟩) 3).handed := by
  refine ⟨C8_zero_buffer_backpressure.1, ?_⟩
  exact C8_zero_buffer_backpressure.2.2.2
    (PSys.mk false [] (CPC.submitting ⟨[], 0, "x"⟩) 3) ⟨[], 0, "x"⟩
    [PLbl.cancelSig] (PSys.mk true [] (CPC.submitting ⟨[], 0, "x"⟩) 3)
    rfl (by decide)
    (PTrace.cons (PStep.cancelStep _) (PTrace.nil _))

end Gcplog

namespace Gcplog

/-! ## Target facade (`pull_target.go` 122–144, `push_target.go` 133–151) -/

/-- Modelled from the spec: the fixed tag for gcplog targets
(`target.GcplogTargetType`, defined outside the supplied sources; both
variants return this one constant). -/
def GcplogTargetType : String := "Gcplog"

/-- A label set as ordered (name, value) pairs.  A nil Go
`model.LabelSet` map is observationally empty for reads, so nil is
represented as `[]`. -/
abbrev LabelSet := List (String × String)

/-- The configuration fields the facade methods read
(`scrapeconfig.GcplogTargetConfig`). -/
structure GcplogTargetConfig where
  labels : LabelSet
  useIncomingTimestamp : Bool
  projectID : String
  subscription : String
deriving DecidableEq, Repr

/-- `pullTarget.Type` (line 122). -/
def pullTargetType : String := GcplogTargetType

/-- `pullTarget.Ready` (line 126): unconditionally true. -/
def pullTargetReady : Bool := true

/-- `pullTarget.DiscoveredLabels` (line 134): returns nil, an empty
label set. -/
def pullTargetDiscoveredLabels : LabelSet := []

/-- `pullTarget.Labels` (line 138): the configured static labels. -/
def pullTargetLabels (c : GcplogTargetConfig) : LabelSet := c.labels

/-- `pullTarget.Details` (line 142): the method returns `nil`, of
interface type — `none` here; a map `m` would be `some m`. -/
def pullTargetDetails : Option (List (String × String)) := none

/-- `pushTarget.Type` (line 133). -/
def pushTargetType : String := GcplogTargetType

/-- `pushTarget.Ready` (line 145): unconditionally true. -/
def pushTargetReady : Bool := true

/-- `pushTarget.DiscoveredLabels` (line 137): returns nil, an empty
label set. -/
def pushTargetDiscoveredLabels : LabelSet := []

/-- `pushTarget.Labels` (line 141): the configured static labels. -/
def pushTargetLabels (c : GcplogTargetConfig) : LabelSet := c.labels

/-- `pushTarget.Details` (line 149): an empty `map[string]string`. -/
def pushTargetDetails : Option (List (String × String)) := some []

/-- Counterexample to C9 as stated: the pull target's `Details()`
returns nil (line 143 of `pull_target.go`), not a map, so "Details()
returns a free-form diagnostic map" fails for the pull variant. -/
theorem C9_counterexample : ¬ ∃ m, pullTargetDetails = some m := by
  intro h
  obtain ⟨m, hm⟩ := h
  simp [pullTargetDetails] at hm

/-- C9 amended: both Target variants implement the facade with, in
every state, `Type()` the fixed gcplog tag, `Labels()` the configured
static label set, `DiscoveredLabels()` empty, `Ready()` true, and
`Details()` a free-form diagnostic value — an empty map for the push
variant and nil for the pull variant. -/
theorem C9_facade_methods :
    pullTargetType = GcplogTargetType ∧ pushTargetType = GcplogTargetType
    ∧ pullTargetReady = true ∧ pushTargetReady = true
    ∧ pullTargetDiscoveredLabels = [] ∧ pushTargetDiscoveredLabels = []
    ∧ (∀ c, pullTargetLabels c = c.labels)
    ∧ (∀ c, pushTargetLabels c = c.labels)
    ∧ pushTargetDetails = some [] ∧ pullTargetDetails = none :=
  ⟨rfl, rfl, rfl, rfl, rfl, rfl, fun _ => rfl, fun _ => rfl, rfl, rfl⟩

end Gcplog

namespace Gcplog

/-! ## Push target startup validation (`push_target.go`, `run` lines
61–96, `newPushTarget` lines 35–59) -/

/-- `model.IsValidMetricName` from prometheus/common, the exact check
`run` performs on the tentative metrics namespace: nonempty; every
character a letter, `_` or `:`, with digits also allowed except as the
first character. -/
def validMetricChar (isFirst : Bool) (c : Char) : Bool :=
  ('a' ≤ c && c ≤ 'z') || ('A' ≤ c && c ≤ 'Z') || c == '_' || c == ':'
    || (('0' ≤ c && c ≤ '9') && !isFirst)

def isValidMetricName (s : String) : Bool :=
  match s.toList with
  | [] => false
  | c :: rest => validMetricChar true c && rest.all (validMetricChar false)

/-- Server lifecycle events of `pushTarget.run`. -/
inductive SrvEv where
  | serverCreated
  | serverStarted
deriving DecidableEq, Repr

/-- The namespace string built at line 66, before the job name. -/
def pushTargetMetricsNamespaceBase : String := "promtail_gcp_push_target_"

/-- `pushTarget.run` (lines 61–96): builds the tentative metrics
namespace, rejects the job name when the result is not a valid metric
name — before any server is created — and otherwise creates and starts
the HTTP server (the external `server.New` outcome is a parameter). -/
def pushTargetRun (serverNew : Except String Unit) (jobName : String) :
    Except String Unit × List SrvEv :=
  if isValidMetricName (pushTargetMetricsNamespaceBase ++ jobName) then
    match serverNew with
    | .error e => (.error e, [])
    | .ok _ => (.ok (), [.serverCreated, .serverStarted])
  else
    (.error ("invalid prometheus-compatible job name: " ++ jobName), [])

/-- `newPushTarget` (lines 35–59): merge the server config with
defaults (external outcome as a parameter), then `run`. -/
def newPushTarget (mergeDefaults : Except String Unit)
    (serverNew : Except String Unit) (jobName : String) :
    Except String Unit × List SrvEv :=
  match mergeDefaults with
  | .error e =>
    (.error ("failed to parse configs and override defaults when configuring gcp push target: " ++ e), [])
  | .ok _ => pushTargetRun serverNew jobName

/-- C10: for every job name such that "promtail_gcp_push_target_"
concatenated with the job name is not a valid Prometheus metric name,
`newPushTarget` returns an error and no HTTP server is created or
started. -/
theorem C10_invalid_job_name_no_server
    (mergeDefaults serverNew : Except String Unit) (jobName : String)
    (hbad : isValidMetricName
      (pushTargetMetricsNamespaceBase ++ jobName) = false) :
    isErr (newPushTarget mergeDefaults serverNew jobName).1 = true
    ∧ (newPushTarget mergeDefaults serverNew jobName).2 = [] := by
  cases mergeDefaults with
  | error e => exact ⟨rfl, rfl⟩
  | ok _ => simp [newPushTarget, pushTargetRun, hbad, isErr]

/-- Witness for C10 at the job name "job-1" (a hyphen is not a valid
metric-name character). -/
theorem C10_witness :
    isErr (newPushTarget (Except.ok ()) (Except.ok ()) "job-1").1 = true
    ∧ (newPushTarget (Except.ok ()) (Except.ok ()) "job-1").2 = [] :=
  C10_invalid_job_name_no_server _ _ "job-1" (by decide)

end Gcplog
